import Mathlib

/-
Verification of the event-loop polling core of hriebl/reticulate
(src/event_loop.cpp): a shared request signal with test-and-clear
semantics, a background throttling worker, and the poll callback that
re-arms the signal.

The mutex in the C++ code makes each signal operation atomic; we embed
each operation as a pure function on the signal state, and interleaved
executions as sequences of whole operations.
-/

namespace reticulate
namespace event_loop

/-- The signal class from event_loop.cpp lines 63-85: a single boolean
`pollingRequested_` guarded by a mutex.  The mutex is represented by the
atomicity of the operations below. -/
structure EventPollingSignal where
  pollingRequested_ : Bool
deriving DecidableEq, Repr

/-- The constructor `EventPollingSignal() : pollingRequested_(true)`. -/
def EventPollingSignal.init : EventPollingSignal :=
  { pollingRequested_ := true }

/-- `requestPolling()`: under the mutex, set `pollingRequested_ = true`. -/
def EventPollingSignal.requestPolling (_s : EventPollingSignal) : EventPollingSignal :=
  { pollingRequested_ := true }

/-- `collectRequest()`: under the mutex, read `pollingRequested_`, set it to
false, and return the value read, together with the resulting state. -/
def EventPollingSignal.collectRequest (s : EventPollingSignal) :
    Bool × EventPollingSignal :=
  (s.pollingRequested_, { pollingRequested_ := false })

/-- Iterated `collectRequest`, keeping only the state. -/
def collectN : Nat → EventPollingSignal → EventPollingSignal
  | 0, s => s
  | n + 1, s => collectN n (s.collectRequest).2

/-- Iterated `requestPolling`. -/
def requestN : Nat → EventPollingSignal → EventPollingSignal
  | 0, s => s
  | n + 1, s => requestN n s.requestPolling

/-- Host-side state visible to the poll callback: whether host interrupt
delivery is currently suspended, and a counter of completed host
event-processing runs (abstracting the side effects of R_ProcessEvents). -/
structure HostState where
  interruptsSuspended : Bool
  eventsProcessed : Nat
deriving DecidableEq, Repr

/-- Modelled from the spec: `InterruptsSuspendedScope` is declared in
signals.h, which is not under src/.  Per the spec it is an acquire/release
pair: on scope entry it records the previous suspension state and disables
delivery of host cancellation signals.  Returns the saved value and the
updated host state. -/
def InterruptsSuspendedScope.acquire (h : HostState) : Bool × HostState :=
  (h.interruptsSuspended, { h with interruptsSuspended := true })

/-- Modelled from the spec: scope exit restores the suspension state to the
saved pre-call value, unconditionally on every exit path. -/
def InterruptsSuspendedScope.release (saved : Bool) (h : HostState) : HostState :=
  { h with interruptsSuspended := saved }

/-- `processEvents(void*)` from event_loop.cpp lines 115-117: invokes the
external host hook R_ProcessEvents.  The hook is external (declared
`extern`); per the spec it performs one unit of host event processing and
may fail internally via a non-local exit, which we model by the boolean
parameter `hookFails`. -/
def processEvents (hookFails : Bool) (h : HostState) : Except Unit HostState :=
  if hookFails then Except.error ()
  else Except.ok { h with eventsProcessed := h.eventsProcessed + 1 }

/-- Modelled from the spec: `R_ToplevelExec` is the external safe top-level
execution wrapper.  It executes the function, contains any non-local exit,
and returns a status: true on normal completion, false when an exit was
contained (in which case the contained failure does not propagate). -/
def R_ToplevelExec (f : HostState → Except Unit HostState) (h : HostState) :
    Bool × HostState :=
  match f h with
  | Except.ok h2 => (true, h2)
  | Except.error () => (false, h)

/-- `pollForEvents(void*)` from event_loop.cpp lines 125-142: the callback
scheduled on the main Python thread.  It opens an interrupt-suspension
scope, runs processEvents inside R_ToplevelExec, re-arms the signal with
requestPolling, and returns 0; the scope is released when the function
exits (C++ destructor semantics). -/
def pollForEvents (hookFails : Bool) (sig : EventPollingSignal) (h : HostState) :
    Int × EventPollingSignal × HostState :=
  let (saved, h1) := InterruptsSuspendedScope.acquire h
  let (_ok, h2) := R_ToplevelExec (processEvents hookFails) h1
  let sig1 := sig.requestPolling
  let h3 := InterruptsSuspendedScope.release saved h2
  (0, sig1, h3)

/-- Observable actions of one iteration of the worker loop. -/
inductive Action
  | sleep (ms : Nat)
  | collect (result : Bool)
  | addPendingCall
deriving DecidableEq, Repr

/-- One iteration of the loop body of `eventPollingWorker` (event_loop.cpp
lines 96-113): sleep 250 ms, collect the request, and if it was set call
Py_AddPendingCall(pollForEvents, NULL).  Returns the ordered list of
actions performed and the resulting signal state. -/
def eventPollingWorkerIter (sig : EventPollingSignal) :
    List Action × EventPollingSignal :=
  let (requested, sig1) := sig.collectRequest
  if requested then
    ([Action.sleep 250, Action.collect requested, Action.addPendingCall], sig1)
  else
    ([Action.sleep 250, Action.collect requested], sig1)

/-- Whether an action is an injection (a Py_AddPendingCall invocation). -/
def Action.isInject : Action → Bool
  | Action.addPendingCall => true
  | _ => false

/-- Number of injections in an action list. -/
def countInjections (l : List Action) : Nat :=
  (l.filter Action.isInject).length

/-- Events of the two-thread system: one worker-loop iteration, or one
execution of the injected poll callback by the Python interpreter (with
the given internal outcome of the host hook). -/
inductive Step
  | tick
  | callback (hookFails : Bool)
deriving DecidableEq, Repr

/-- Global system state: the shared signal, the host state, and ghost
counters of injections performed by the worker and of requestPolling calls
performed by the callback. -/
structure SysState where
  signal : EventPollingSignal
  host : HostState
  injections : Nat
  requests : Nat
deriving DecidableEq, Repr

/-- One transition of the system. -/
def step : Step → SysState → SysState
  | Step.tick, s =>
      let (acts, sig1) := eventPollingWorkerIter s.signal
      { s with signal := sig1, injections := s.injections + countInjections acts }
  | Step.callback hookFails, s =>
      let (_ret, sig1, h1) := pollForEvents hookFails s.signal s.host
      { s with signal := sig1, host := h1, requests := s.requests + 1 }

/-- Run a finite sequence of steps. -/
def run (steps : List Step) (s : SysState) : SysState :=
  steps.foldl (fun s e => step e s) s

/-- Initial system state: the global s_pollingSignal is freshly
constructed (flag true), and no injections or requests have happened. -/
def initState (h : HostState) : SysState :=
  { signal := EventPollingSignal.init, host := h, injections := 0, requests := 0 }

/-- Operations on the signal, for interleaved two-thread histories. -/
inductive SigOp
  | request
  | collect
deriving DecidableEq, Repr

/-- Apply one signal operation. -/
def applySigOp : SigOp → EventPollingSignal → EventPollingSignal
  | SigOp.request, s => s.requestPolling
  | SigOp.collect, s => (s.collectRequest).2

/-- Number of collectRequest calls in the history that return true. -/
def countTrueCollects : List SigOp → EventPollingSignal → Nat
  | [], _ => 0
  | SigOp.request :: rest, s => countTrueCollects rest s.requestPolling
  | SigOp.collect :: rest, s =>
      (if (s.collectRequest).1 then 1 else 0) +
        countTrueCollects rest (s.collectRequest).2

/-- Number of requestPolling calls in the history. -/
def countRequests (ops : List SigOp) : Nat :=
  (ops.filter fun op => op = SigOp.request).length

/- Helper lemmas -/

theorem run_cons (e : Step) (l : List Step) (s : SysState) :
    run (e :: l) s = run l (step e s) := rfl

theorem collectN_false (k : Nat) :
    collectN k { pollingRequested_ := false } = { pollingRequested_ := false } := by
  induction k with
  | zero => rfl
  | succ n ih => simpa [collectN, EventPollingSignal.collectRequest] using ih

theorem requestN_succ_eq (n : Nat) (s : EventPollingSignal) :
    requestN (n + 1) s = { pollingRequested_ := true } := by
  induction n generalizing s with
  | zero => rfl
  | succ m ih => exact ih s.requestPolling

theorem tick_signal (s : SysState) :
    (step Step.tick s).signal = { pollingRequested_ := false } := by
  cases s with
  | mk sig host inj req =>
      cases sig with
      | mk b => cases b <;> rfl

theorem tick_flagFalse (s : SysState) (h : s.signal.pollingRequested_ = false) :
    step Step.tick s = s := by
  cases s with
  | mk sig host inj req =>
      cases sig with
      | mk b =>
          cases b
          · rfl
          · simp at h

theorem run_ticks_fixed (n : Nat) (s : SysState)
    (h : s.signal.pollingRequested_ = false) :
    run (List.replicate n Step.tick) s = s := by
  induction n with
  | zero => rfl
  | succ m ih =>
      rw [List.replicate_succ, run_cons, tick_flagFalse s h]
      exact ih

/-- Strengthened counting invariant for the bounded-injection claim. -/
def injMeasure (s : SysState) : Nat :=
  s.injections + (if s.signal.pollingRequested_ then 1 else 0)

theorem step_inv (e : Step) (s : SysState) (h : injMeasure s ≤ s.requests + 1) :
    injMeasure (step e s) ≤ (step e s).requests + 1 := by
  cases e with
  | tick =>
      cases s with
      | mk sig host inj req =>
          cases sig with
          | mk b =>
              cases b <;>
                simpa [step, eventPollingWorkerIter, EventPollingSignal.collectRequest,
                  countInjections, Action.isInject, injMeasure] using h
  | callback hookFails =>
      cases s with
      | mk sig host inj req =>
          cases sig with
          | mk b =>
              have hb : inj ≤ req + 1 := by
                cases b <;> simp [injMeasure] at h <;> omega
              cases b <;> cases hookFails <;>
                simp [step, pollForEvents, InterruptsSuspendedScope.acquire,
                  InterruptsSuspendedScope.release, R_ToplevelExec, processEvents,
                  EventPollingSignal.requestPolling, injMeasure] <;> omega

theorem run_inv (steps : List Step) (s : SysState)
    (h : injMeasure s ≤ s.requests + 1) :
    injMeasure (run steps s) ≤ (run steps s).requests + 1 := by
  induction steps generalizing s with
  | nil => exact h
  | cons e rest ih =>
      rw [run_cons]
      exact ih (step e s) (step_inv e s h)

/- Claim theorems -/

/-- C1: collectRequest reads the stored boolean `requested`, resets it to
false, and returns the value that was read: for every prior state, after a
collect the stored flag is false and the returned value equals the flag
value immediately before the call. -/
theorem collectRequest_reads_and_clears (s : EventPollingSignal) :
    (s.collectRequest).1 = s.pollingRequested_ ∧
      (s.collectRequest).2.pollingRequested_ = false :=
  ⟨rfl, rfl⟩

/-- C2: every invocation of pollForEvents re-arms the signal
unconditionally and reports success: for every internal outcome of the
host event-processing step, the flag is true afterwards and the returned
status code is 0; no failure propagates (the function is total). -/
theorem pollForEvents_rearms_and_succeeds (hookFails : Bool)
    (sig : EventPollingSignal) (h : HostState) :
    (pollForEvents hookFails sig h).1 = 0 ∧
      (pollForEvents hookFails sig h).2.1.pollingRequested_ = true := by
  cases hookFails <;> exact ⟨rfl, rfl⟩

/-- C3: each iteration of the worker loop first sleeps 250 ms, then
collects the signal, and performs a Py_AddPendingCall injection if and
only if the collect returned true, with no other action; the signal is
false afterwards. -/
theorem eventPollingWorkerIter_actions (sig : EventPollingSignal) :
    (eventPollingWorkerIter sig).1 =
        [Action.sleep 250, Action.collect sig.pollingRequested_] ++
          (if sig.pollingRequested_ then [Action.addPendingCall] else []) ∧
      (eventPollingWorkerIter sig).2 = { pollingRequested_ := false } ∧
      (Action.addPendingCall ∈ (eventPollingWorkerIter sig).1 ↔
        sig.pollingRequested_ = true) := by
  cases sig with
  | mk b => cases b <;> decide

/-- C4: self-quiescence: with no callback executions (so requestPolling is
never called again), after the signal has been drained by one worker tick
it stays false through every later tick, every later collect returns
false, and no further injections happen. -/
theorem self_quiescence (s : SysState) (n : Nat) :
    (run (List.replicate n Step.tick) (step Step.tick s)).signal.pollingRequested_
        = false ∧
      ((run (List.replicate n Step.tick) (step Step.tick s)).signal.collectRequest).1
        = false ∧
      (run (List.replicate n Step.tick) (step Step.tick s)).injections
        = (step Step.tick s).injections := by
  have h1 : (step Step.tick s).signal.pollingRequested_ = false := by
    rw [tick_signal]
  rw [run_ticks_fixed n (step Step.tick s) h1]
  exact ⟨h1, by rw [EventPollingSignal.collectRequest]; exact h1, rfl⟩

/-- C5: initial prime: the flag is true immediately after construction, the
first collect returns true, and every subsequent collect with no
intervening request returns false. -/
theorem initial_prime :
    EventPollingSignal.init.pollingRequested_ = true ∧
      (EventPollingSignal.init.collectRequest).1 = true ∧
      ∀ k : Nat,
        ((collectN k (EventPollingSignal.init.collectRequest).2).collectRequest).1
          = false := by
  refine ⟨rfl, rfl, fun k => ?_⟩
  rw [show (EventPollingSignal.init.collectRequest).2
        = { pollingRequested_ := false } from rfl, collectN_false]
  rfl

/-- C6: requestPolling unconditionally sets the flag to true from every
prior state, and is idempotent: any positive number of consecutive calls
with no intervening collect yields the same state, and the same next
collect result, as a single call. -/
theorem requestPolling_sets_and_idempotent (s : EventPollingSignal) :
    s.requestPolling.pollingRequested_ = true ∧
      ∀ n : Nat,
        requestN (n + 1) s = s.requestPolling ∧
          ((requestN (n + 1) s).collectRequest).1
            = (s.requestPolling.collectRequest).1 := by
  refine ⟨rfl, fun n => ?_⟩
  have h : requestN (n + 1) s = { pollingRequested_ := true } := requestN_succ_eq n s
  exact ⟨h, by rw [h]; rfl⟩

/-- C7: burst collapse: from any state, after three consecutive
requestPolling calls with no intervening collect, exactly one subsequent
collect returns true and the collect immediately after it returns
false. -/
theorem burst_collapse (s : EventPollingSignal) :
    ((s.requestPolling.requestPolling.requestPolling).collectRequest).1 = true ∧
      (((s.requestPolling.requestPolling.requestPolling).collectRequest).2.collectRequest).1
        = false :=
  ⟨rfl, rfl⟩

/-- C8: interrupt suspension is scoped: pollForEvents acquires the
suspension scope on entry (interrupts are suspended for the body) and the
suspension state is restored to its pre-call value on every exit path,
including when the host hook fails inside the wrapper. -/
theorem interrupt_suspension_scoped (hookFails : Bool)
    (sig : EventPollingSignal) (h : HostState) :
    (pollForEvents hookFails sig h).2.2.interruptsSuspended
        = h.interruptsSuspended ∧
      ((InterruptsSuspendedScope.acquire h).2).interruptsSuspended = true := by
  cases hookFails <;>
    exact ⟨rfl, rfl⟩

/-- C9: bounded injection count: in every finite execution from the
initial state, the number of injections is at most the number of
requestPolling calls plus one (the initial prime). -/
theorem bounded_injection_count (steps : List Step) (h : HostState) :
    (run steps (initState h)).injections ≤ (run steps (initState h)).requests + 1 := by
  have h0 : injMeasure (initState h) ≤ (initState h).requests + 1 := by
    simp [injMeasure, initState, EventPollingSignal.init]
  have := run_inv steps (initState h) h0
  unfold injMeasure at this
  omega

/-- C10: test-and-clear under interleaving: for any interleaved history of
request and collect operations (each atomic under the mutex), the number
of collects that return true is at most the number of requests in the
history plus one if the flag was initially set, so each collect returns
true at most once per unconsumed preceding request. -/
theorem test_and_clear_interleaving (ops : List SigOp) (s : EventPollingSignal) :
    countTrueCollects ops s ≤
      countRequests ops + (if s.pollingRequested_ then 1 else 0) := by
  induction ops generalizing s with
  | nil => simp [countTrueCollects]
  | cons op rest ih =>
      cases op with
      | request =>
          have := ih s.requestPolling
          simp [countTrueCollects, countRequests, EventPollingSignal.requestPolling] at this ⊢
          omega
      | collect =>
          have := ih (s.collectRequest).2
          cases hb : s.pollingRequested_ <;>
            simp [countTrueCollects, countRequests, EventPollingSignal.collectRequest, hb] at this ⊢ <;>
            omega

end event_loop
end reticulate
